import Mathlib

/-!
Shallow embedding of the servos kernel core (virtual-memory manager, syscall
layer, VFS and filesystems) for checking the specification claims.

Conventions of the embedding:
- machine words (usize/u64) are `Nat`; points where overflow or two's
  complement matter use explicit `% 2 ^ 64` / `Int` arithmetic;
- Rust `Result<T, E>` is an explicit result inductive; a Rust panic is
  modelled as `Option.none` wrapped around the result;
- heap allocation of interior page tables is assumed to succeed (the claims
  under study condition on success), fresh physical frames are supplied by an
  explicit `fresh` source;
- raw pointers to child page tables are replaced by the subtree itself, so a
  page table is a function from entry index to entry.
-/

namespace Servos

/-! ## Constants (vmm/paging.rs, vmm/vaddr.rs) -/

/-- Page::SIZE -/
def pageSize : Nat := 4096

/-- VirtAddr::MAX = 1 << (12 + SV39_LEVELS * 9 - 1) -/
def vaMax : Nat := 2 ^ 38

def u64Max : Nat := 2 ^ 64 - 1

/-- page_number(addr) = addr & !(Page::SIZE - 1); for addr < 2^64 this equals
rounding down to a multiple of 4096. -/
def pageNumber (addr : Nat) : Nat := addr / pageSize * pageSize

/-- page_offset(addr) = addr & (Page::SIZE - 1) -/
def pageOffset (addr : Nat) : Nat := addr % pageSize

/-- VirtAddr::next_page -/
def nextPage (va : Nat) : Nat := pageNumber (va + pageSize)

/-- VirtAddr::vpn(level) = (va >> (12 + level * 9)) & 0x1ff -/
def vpn (va level : Nat) : Nat := (va >>> (12 + level * 9)) &&& 0x1ff

/-- VirtAddr::offset(level) = va & ((1 << (12 + level * 9)) - 1) -/
def offsetAt (va level : Nat) : Nat := va &&& ((1 <<< (12 + level * 9)) - 1)

/-! ## Pte permission bits (vmm/paging.rs bitflags) -/

def pteV : Nat := 1
def pteR : Nat := 2
def pteW : Nat := 4
def pteX : Nat := 8
def pteU : Nat := 16
def pteG : Nat := 32
def pteA : Nat := 64
def pteD : Nat := 128
def pteOwned : Nat := 256
def pteRsw1 : Nat := 512
def pteRwx : Nat := pteR ||| pteW ||| pteX
def pteUrw : Nat := pteU ||| pteR ||| pteW

/-- the low ten bits kept by PageTableEntry::new / PageTableEntry::perms -/
def pteMask10 : Nat := 0x3ff

/-- bitflags `contains`: stored.bits & req.bits == req.bits -/
def pteContains (stored req : Nat) : Bool := stored &&& req == req

/-! ## Page tables

A `PageTableEntry` decodes (via `next()` and `perms()`) into one of: invalid,
a leaf holding `addr = (bits >> 10) << 12` and the low ten permission bits,
or a link to a child table.  The child pointer is replaced by the subtree. -/

inductive PTE where
  | invalid : PTE
  | leaf (addr perms : Nat) : PTE
  | node (child : Nat → PTE) : PTE

/-- a page table is its array of 512 entries, indexed by vpn -/
def PTab : Type := Nat → PTE

/-- PageTable::alloc gives a zeroed table: every entry invalid -/
def ptEmpty : PTab := fun _ => .invalid

/-- in-place store to one entry of a table -/
def upd (t : PTab) (i : Nat) (e : PTE) : PTab := fun j => if j = i then e else t j

/-- PageTableEntry::new(pa, perms) viewed through next()/perms():
addr = (pa >> 12) << 12 = page_number(pa), perms = (perms & 0x3ff) | V. -/
def pteNewLeaf (pa perms : Nat) : PTE :=
  .leaf (pageNumber pa) ((perms &&& pteMask10) ||| pteV)

/-- VirtAddr::to_phys walk, from `level` down to 0.  A node at level 0 falls
out of the loop (error); a leaf whose perms do not contain the request breaks
(error). -/
def toPhysAux : Nat → PTab → Nat → Nat → Option Nat
  | 0, pt, va, perms =>
    match pt (vpn va 0) with
    | .leaf addr ps => if pteContains ps perms then some (addr + offsetAt va 0) else none
    | _ => none
  | l + 1, pt, va, perms =>
    match pt (vpn va (l + 1)) with
    | .node child => toPhysAux l child va perms
    | .leaf addr ps =>
      if pteContains ps perms then some (addr + offsetAt va (l + 1)) else none
    | .invalid => none

/-- VirtAddr::to_phys; `none` is the BadVa (VirtToPhysErr) outcome -/
def toPhys (pt : PTab) (va perms : Nat) : Option Nat := toPhysAux 2 pt va perms

/-- PageTable::map_page_raw from `level` down; interior invalid entries get a
fresh zeroed child table (allocation failure is not modelled); an interior
leaf or an occupied level-0 slot panics (`none`).  The stored leaf carries
perms | D | A as in the source. -/
def mapPageRawAux : Nat → PTab → Nat → Nat → Nat → Option PTab
  | 0, pt, pa, va, perms =>
    match pt (vpn va 0) with
    | .invalid => some (upd pt (vpn va 0) (pteNewLeaf pa (perms ||| pteD ||| pteA)))
    | _ => none
  | l + 1, pt, pa, va, perms =>
    match pt (vpn va (l + 1)) with
    | .node child =>
      (mapPageRawAux l child pa va perms).map (fun c => upd pt (vpn va (l + 1)) (.node c))
    | .leaf _ _ => none
    | .invalid =>
      (mapPageRawAux l ptEmpty pa va perms).map (fun c => upd pt (vpn va (l + 1)) (.node c))

def mapPageRaw (pt : PTab) (pa va perms : Nat) : Option PTab :=
  mapPageRawAux 2 pt pa va perms

/-- the loop body of PageTable::map_pages: `count` pages starting at page
index `i` -/
def mapPagesGo : Nat → Nat → Nat → Nat → Nat → PTab → Option PTab
  | 0, _, _, _, _, pt => some pt
  | count + 1, i, first, va, perms, pt =>
    match mapPageRaw pt (first + i * pageSize) (va + i * pageSize) perms with
    | some pt2 => mapPagesGo count (i + 1) first va perms pt2
    | none => none

/-- PageTable::map_pages.  The asserts (perms ∩ RWX ≠ ∅, size ≠ 0, page range
inside VirtAddr::MAX) panic (`none`); the Owned bit is stripped from perms. -/
def mapPages (pt : PTab) (pa va size perms : Nat) : Option PTab :=
  if perms &&& pteRwx = 0 then none
  else if size = 0 then none
  else
    let va2 := pageNumber va
    let first := pageNumber pa
    let last := pageNumber (pa + size - 1)
    if first < vaMax ∧ last < vaMax ∧ first ≤ last then
      mapPagesGo ((last - first) / pageSize + 1) 0 first va2 (perms &&& (u64Max ^^^ pteOwned)) pt
    else none

/-- the loop body of PageTable::map_new_pages: `count` fresh frames from the
`fresh` source, installed Owned -/
def mapNewPagesGo : Nat → Nat → Nat → Nat → (Nat → Nat) → PTab → Option PTab
  | 0, _, _, _, _, pt => some pt
  | count + 1, k, page, perms, fresh, pt =>
    match mapPageRaw pt (fresh k) page perms with
    | some pt2 => mapNewPagesGo count (k + 1) (page + pageSize) perms fresh pt2
    | none => none

/-- PageTable::map_new_pages.  Result `some (false, _)` is the `return false`
on a bad page range; `none` is a panic inside map_page_raw.  Frame contents
(the `zero` flag) are not modelled, the k-th allocated frame has address
`fresh k`. -/
def mapNewPages (pt : PTab) (va size perms : Nat) (fresh : Nat → Nat) :
    Option (Bool × PTab) :=
  if perms &&& pteRwx = 0 then none
  else if size = 0 then none
  else
    let first := pageNumber va
    let last := pageNumber (va + size - 1)
    if first < vaMax ∧ last < vaMax ∧ first ≤ last then
      (mapNewPagesGo ((last - first) / pageSize + 1) 0 first (perms ||| pteOwned) fresh pt).map
        (fun pt2 => (true, pt2))
    else some (false, pt)

/-- PageTable::unmap_page walk.  Returns the new table, the list of freed
frames (an Owned leaf is freed, a plain leaf only detached) and the success
flag; `none` is the `level > 0` leaf assert panic. -/
def unmapPageAux : Nat → PTab → Nat → Option (PTab × List Nat × Bool)
  | 0, pt, va =>
    match pt (vpn va 0) with
    | .leaf addr perms =>
      some (upd pt (vpn va 0) .invalid,
        if perms &&& pteOwned ≠ 0 then [addr] else [], true)
    | _ => some (pt, [], false)
  | l + 1, pt, va =>
    match pt (vpn va (l + 1)) with
    | .node child =>
      (unmapPageAux l child va).map
        (fun r => (upd pt (vpn va (l + 1)) (.node r.1), r.2.1, r.2.2))
    | .leaf _ _ => none
    | .invalid => some (pt, [], false)

def unmapPage (pt : PTab) (va : Nat) : Option (PTab × List Nat × Bool) :=
  unmapPageAux 2 pt va

/-- the loop of PageTable::unmap_pages over `count` consecutive pages -/
def unmapPagesGo : Nat → Nat → PTab → Option (PTab × List Nat)
  | 0, _, pt => some (pt, [])
  | count + 1, page, pt =>
    match unmapPage pt page with
    | some (pt2, freed, _) =>
      (unmapPagesGo count (page + pageSize) pt2).map (fun r => (r.1, freed ++ r.2))
    | none => none

/-- PageTable::unmap_pages; the argument assert panics (`none`) when violated -/
def unmapPages (pt : PTab) (va vaEnd : Nat) : Option (PTab × List Nat) :=
  if va < vaMax ∧ vaEnd < vaMax ∧ va ≤ vaEnd then
    unmapPagesGo ((pageNumber vaEnd - pageNumber va) / pageSize + 1) (pageNumber va) pt
  else none

/-! ## Error enumerations (shared sys.rs, fs/mod.rs) -/

/-- the kernel-to-user error enumeration, `#[repr(usize)]` starting at 1, in
the order of the shared crate / spec section 7 -/
inductive SysError where
  | badSyscall
  | badArg
  | notFound
  | badFd
  | noMem
  | pathNotFound
  | readOnly
  | invalidOp
  | unsupported
  | corruptedFs
  | invalidPerms
  | badAddr
  | eof
  deriving DecidableEq

/-- the `err as usize` discriminant of SysError -/
def SysError.code : SysError → Nat
  | .badSyscall => 1
  | .badArg => 2
  | .notFound => 3
  | .badFd => 4
  | .noMem => 5
  | .pathNotFound => 6
  | .readOnly => 7
  | .invalidOp => 8
  | .unsupported => 9
  | .corruptedFs => 10
  | .invalidPerms => 11
  | .badAddr => 12
  | .eof => 13

/-- FsError of fs/mod.rs, including the Eof variant used by initrd.rs and
mapped at the syscall boundary -/
inductive FsError where
  | pathNotFound
  | noMem
  | readOnly
  | invalidOp
  | unsupported
  | corruptedFs
  | invalidPerms
  | badVa
  | eof
  deriving DecidableEq

/-- Result<α, FsError> -/
inductive FsRes (α : Type) where
  | ok (val : α) : FsRes α
  | err (e : FsError) : FsRes α
  deriving DecidableEq

/-- SysResult = Result<usize, SysError> -/
inductive SysRes where
  | ok (val : Nat) : SysRes
  | err (e : SysError) : SysRes
  deriving DecidableEq

/-! ## Devices (dev/null.rs, dev/zero.rs)

Buffers are byte lists; a read gets the buffer length and returns the bytes
written into the buffer. -/

/-- NullDevice::read: fills the buffer with zeroes and returns all of it -/
def nullDeviceRead (_pos bufLen : Nat) : FsRes (List Nat) :=
  .ok (List.replicate bufLen 0)

/-- NullDevice::write: Ok(buf.len()) -/
def nullDeviceWrite (_pos : Nat) (buf : List Nat) : FsRes Nat := .ok buf.length

/-- ZeroDevice::read: fills the buffer with zeroes and returns all of it -/
def zeroDeviceRead (_pos bufLen : Nat) : FsRes (List Nat) :=
  .ok (List.replicate bufLen 0)

/-- ZeroDevice::write: Err(InvalidOp) -/
def zeroDeviceWrite (_pos : Nat) (_buf : List Nat) : FsRes Nat := .err .invalidOp

/-! ## File descriptors (fs/vfs.rs) -/

structure VNode where
  ino : Nat
  directory : Bool
  readonly : Bool
  deriving DecidableEq

/-- an Fd is its vnode plus the cursor cell; the owning filesystem is
abstracted into the device-operation argument of each call -/
structure Fd where
  node : VNode
  pos : Nat
  deriving DecidableEq

/-- Fd::exec_with_pos_raw.  With the u64::MAX sentinel the call runs at the
cursor and on success the cursor advances by the returned count (u64
wrap-around arithmetic); on failure or with an explicit position the cursor
cell is untouched. -/
def execWithPosRaw {T : Type} (fd : Fd) (pos : Nat) (f : Nat → FsRes (Nat × T)) :
    FsRes (Nat × T) × Fd :=
  if pos = u64Max then
    match f fd.pos with
    | .ok r => (.ok r, { fd with pos := (fd.pos + r.1) % 2 ^ 64 })
    | .err e => (.err e, fd)
  else (f pos, fd)

/-- Fd::exec_with_pos -/
def execWithPos (fd : Fd) (pos : Nat) (f : Nat → FsRes Nat) : FsRes Nat × Fd :=
  match execWithPosRaw fd pos
      (fun p => match f p with | .ok n => .ok (n, ()) | .err e => .err e) with
  | (.ok r, fd2) => (.ok r.1, fd2)
  | (.err e, fd2) => (.err e, fd2)

/-- Fd::read_va: reject directories, then delegate the filesystem read_va
through the cursor rule.  `devRead pos` is `self.dev.read_va(&self.node, pos,
pt, va, len)`. -/
def fdReadVa (fd : Fd) (pos : Nat) (devRead : Nat → FsRes Nat) : FsRes Nat × Fd :=
  if fd.node.directory then (.err .invalidOp, fd)
  else execWithPos fd pos devRead

/-! ## Initrd filesystem (fs/initrd.rs) -/

/-- INODE_DIR -/
def inodeDir : Nat := 1

structure INode where
  name : List Nat
  nlen : Nat
  typ : Nat
  size : Nat
  addr : Nat
  deriving DecidableEq

structure InitRd where
  inodes : List INode
  data : List Nat
  deriving DecidableEq

/-- InitRd::read.  The outer `none` is the panic of the slice index
`data[addr + pos ..][.. len]` when it leaves the blob; otherwise the result
mirrors vnode_to_inode + the directory check + the checked_sub Eof test +
the copy of `min (buf.len) (size - pos)` bytes. -/
def initrdRead (fs : InitRd) (vn : VNode) (pos bufLen : Nat) :
    Option (FsRes (List Nat)) :=
  match fs.inodes[vn.ino]? with
  | none => some (.err .corruptedFs)
  | some inode =>
    if inode.typ = inodeDir then some (.err .invalidOp)
    else if inode.size - pos = 0 then some (.err .eof)
    else
      let len := min bufLen (inode.size - pos)
      if inode.addr + pos + len ≤ fs.data.length then
        some (.ok ((fs.data.drop (inode.addr + pos)).take len))
      else none

/-! ## Process bits (proc.rs, sys.rs) -/

inductive ProcStatus where
  | idle
  | running
  | waiting (pid : Nat)
  deriving DecidableEq

/-- Reg::A0 -/
def regA0 : Nat := 10

/-- Reg::A1 -/
def regA1 : Nat := 11

/-- kernel-resident process state relevant to destroy/waitpid: pid, status
and the trap-frame register array -/
structure Proc where
  pid : Nat
  status : ProcStatus
  regs : Nat → Nat

/-- store into one trap-frame register slot -/
def updReg (regs : Nat → Nat) (i v : Nat) : Nat → Nat :=
  fun j => if j = i then v else regs j

/-- VecDeque::swap_remove_back(i): overwrite slot i with the back element and
pop the back -/
def swapRemoveBack (l : List Proc) (i : Nat) : List Proc :=
  match l.getLast? with
  | some last => (l.set i last).dropLast
  | none => l

/-- the destroy fan-out body: a process waiting on `mypid` becomes Idle with
A0 = ecode, A1 = 0 -/
def wakeWaiter (mypid ecode : Nat) (p : Proc) : Proc :=
  if p.status = .waiting mypid then
    { p with status := .idle, regs := updReg (updReg p.regs regA0 ecode) regA1 0 }
  else p

/-- ProcessNode::destroy.  `procs` is PROC_LIST, `i` the position of the
dying process in it; `none` is the pid-0 panic.  The dying process is
swap-removed, then every remaining waiter on its pid is woken. -/
def destroy (procs : List Proc) (i : Nat) (ecode : Nat) : Option (List Proc) :=
  match procs[i]? with
  | none => none
  | some self =>
    if self.pid = 0 then none
    else some ((swapRemoveBack procs i).map (wakeWaiter self.pid ecode))

/-- sys_waitpid over the list of live pids: error on the own pid, otherwise
Ok(0), entering Waiting(pid) exactly when some live process carries `pid` -/
def sysWaitpid (livePids : List Nat) (selfPid : Nat) (selfStatus : ProcStatus)
    (pid : Nat) : SysRes × ProcStatus :=
  if selfPid = pid then (.err .badArg, selfStatus)
  else if livePids.any (fun p => p = pid) then (.ok 0, .waiting pid)
  else (.ok 0, selfStatus)

/-! ## Sbrk (sys.rs sys_sbrk) -/

/-- the brk and page table of one process -/
structure ProcMem where
  brk : Nat
  pt : PTab

/-- usize::checked_add_signed -/
def checkedAddSigned (cur : Nat) (inc : Int) : Option Nat :=
  let s : Int := (cur : Int) + inc
  if 0 ≤ s ∧ s < 2 ^ 64 then some s.toNat else none

/-- sys_sbrk.  `none` is a kernel panic inside the mapping helpers; otherwise
the returned SysRes and the process state after the call. -/
def sysSbrk (st : ProcMem) (inc : Int) (fresh : Nat → Nat) :
    Option (SysRes × ProcMem) :=
  match checkedAddSigned st.brk inc with
  | none => some (.err .badArg, st)
  | some newBrk =>
    if ¬(pageNumber newBrk = pageNumber st.brk ∨
        (inc = 1 ∧ pageNumber newBrk ≠ pageNumber st.brk)) then
      if inc < 0 then
        match unmapPages st.pt (nextPage newBrk) st.brk with
        | none => none
        | some r => some (.ok newBrk, ⟨newBrk, r.1⟩)
      else
        match mapNewPages st.pt (nextPage st.brk) (newBrk - nextPage st.brk) pteUrw fresh with
        | none => none
        | some (false, pt2) => some (.err .noMem, ⟨st.brk, pt2⟩)
        | some (true, pt2) => some (.ok newBrk, ⟨newBrk, pt2⟩)
    else some (.ok newBrk, ⟨newBrk, st.pt⟩)

/-! ## Syscall result writeback (sys.rs handle_syscall) -/

/-- the result-to-register mapping at the end of handle_syscall -/
def encodeSysResult : SysRes → Nat × Nat
  | .ok res => (res, 0)
  | .err e => (0, e.code)

/-- handle_syscall epilogue: store the encoded pair into trapframe A0/A1 -/
def handleSyscallWriteback (regs : Nat → Nat) (r : SysRes) : Nat → Nat :=
  updReg (updReg regs regA0 (encodeSysResult r).1) regA1 (encodeSysResult r).2

/-! ## VFS path routing (fs/vfs.rs Vfs::open, fs/path.rs)

Paths are byte lists; `/` is byte 47.  Path::components splits on the slash
and drops empty pieces.  Vfs::open walks the mount map in descending order of
the raw byte keys (the derived Ord of OwnedPath(Box<[u8]>) used by the
BTreeMap) and takes the first mount whose components are a prefix of the
path's components, handing the remaining components to that filesystem. -/

/-- the byte b'/' -/
def slashByte : Nat := 47

/-- Path::components -/
def pathComponents (p : List Nat) : List (List Nat) :=
  (p.splitOn slashByte).filter (fun c => ¬ c.isEmpty)

/-- Path::strip_prefix via iter_after: succeeds when the mount's components
are a prefix of the path's, returning the remaining components (the source
rebuilds the byte slice spanning exactly these components) -/
def stripPrefixM (path mount : List Nat) : Option (List (List Nat)) :=
  if (pathComponents mount).isPrefixOf (pathComponents path) then
    some ((pathComponents path).drop (pathComponents mount).length)
  else none

/-- the find_map of Vfs::open over the already-reversed mount list; the
result is the chosen filesystem handle and the stripped remaining path -/
def vfsOpenGo : List (List Nat × Nat) → List Nat → Option (Nat × List (List Nat))
  | [], _ => none
  | (mount, fsid) :: rest, path =>
    match stripPrefixM path mount with
    | some r => some (fsid, r)
    | none => vfsOpenGo rest path

/-- Vfs::open routing: mounts are given in ascending BTreeMap order and
walked reversed; `none` is the PathNotFound outcome -/
def vfsOpen (mounts : List (List Nat × Nat)) (path : List Nat) :
    Option (Nat × List (List Nat)) :=
  vfsOpenGo mounts.reverse path

/-- the derived lexicographic byte order of OwnedPath(Box<[u8]>) keys -/
abbrev byteLt (a b : List Nat) : Prop := List.Lex (· < ·) a b

/-- the canonical absolute spelling of a component list: "/" for the root,
otherwise the components each preceded by one slash -/
def encodeAbs (cs : List (List Nat)) : List Nat :=
  match cs with
  | [] => [slashByte]
  | _ => (cs.map (fun c => slashByte :: c)).flatten

/-- a mount key is canonical-absolute when re-encoding its components gives
back exactly its bytes -/
abbrev canonicalMount (k : List Nat) : Prop := encodeAbs (pathComponents k) = k

/-! # Theorems -/

/-- C8 (counterexample): the null device does not behave as claimed.  Its
read of one byte at position 0 returns one zero byte rather than Eof, and its
write of one byte returns Ok(1) rather than InvalidOp. -/
theorem null_device_cex :
    nullDeviceRead 0 1 = .ok [0] ∧ nullDeviceRead 0 1 ≠ .err .eof ∧
    nullDeviceWrite 0 [7] = .ok 1 ∧ nullDeviceWrite 0 [7] ≠ .err .invalidOp :=
  ⟨rfl, by decide, rfl, by decide⟩

/-- C8 (amended): for every position and buffer, the null device's read fills
the entire buffer with zero bytes and its write succeeds returning the buffer
length; the zero device's read fills the entire buffer with zero bytes and
its write returns InvalidOp. -/
theorem null_zero_device_behaviour (pos bufLen : Nat) (buf : List Nat) :
    nullDeviceRead pos bufLen = .ok (List.replicate bufLen 0) ∧
    nullDeviceWrite pos buf = .ok buf.length ∧
    zeroDeviceRead pos bufLen = .ok (List.replicate bufLen 0) ∧
    zeroDeviceWrite pos buf = .err .invalidOp :=
  ⟨rfl, rfl, rfl, rfl⟩

/-- C5: the handle_syscall writeback satisfies the syscall ABI: on success a0
holds the result and a1 holds 0; on failure a0 holds 0 and a1 holds the
nonzero error code; a1 is 0 exactly when the syscall succeeded. -/
theorem handle_syscall_abi (regs : Nat → Nat) (v : Nat) (e : SysError) (r : SysRes) :
    handleSyscallWriteback regs (.ok v) regA0 = v ∧
    handleSyscallWriteback regs (.ok v) regA1 = 0 ∧
    handleSyscallWriteback regs (.err e) regA0 = 0 ∧
    handleSyscallWriteback regs (.err e) regA1 = e.code ∧
    e.code ≠ 0 ∧
    (handleSyscallWriteback regs r regA1 = 0 ↔ ∃ w, r = .ok w) := by
  refine ⟨by simp [handleSyscallWriteback, updReg, encodeSysResult, regA0, regA1],
    by simp [handleSyscallWriteback, updReg, encodeSysResult, regA0, regA1],
    by simp [handleSyscallWriteback, updReg, encodeSysResult, regA0, regA1],
    by simp [handleSyscallWriteback, updReg, encodeSysResult, regA0, regA1],
    by cases e <;> simp [SysError.code], ?_⟩
  cases r with
  | ok w => simp [handleSyscallWriteback, updReg, encodeSysResult, regA0, regA1]
  | err e =>
    simp only [handleSyscallWriteback, updReg, encodeSysResult, regA0, regA1]
    constructor
    · intro h
      exact absurd h (by cases e <;> simp [SysError.code])
    · rintro ⟨w, hw⟩
      exact absurd hw (by simp)

/-- C10: sys_waitpid returns BadArg on the caller's own pid leaving the
status unchanged; with no live process of that pid it returns Ok(0) without
waiting; with some other live process of that pid it returns Ok(0) and the
caller's status becomes Waiting(pid). -/
theorem waitpid_edge_cases (livePids : List Nat) (selfPid : Nat)
    (st : ProcStatus) (pid : Nat) :
    (selfPid = pid → sysWaitpid livePids selfPid st pid = (.err .badArg, st)) ∧
    (selfPid ≠ pid → pid ∉ livePids →
      sysWaitpid livePids selfPid st pid = (.ok 0, st)) ∧
    (selfPid ≠ pid → pid ∈ livePids →
      sysWaitpid livePids selfPid st pid = (.ok 0, .waiting pid)) := by
  refine ⟨fun h => by simp [sysWaitpid, h], fun h hmem => ?_, fun h hmem => ?_⟩
  · have : livePids.any (fun p => p = pid) = false := by
      simp only [List.any_eq_false, decide_eq_true_eq]
      intro x hx hxe
      exact hmem (hxe ▸ hx)
    simp [sysWaitpid, h, this]
  · have : livePids.any (fun p => p = pid) = true := by
      simp only [List.any_eq_true, decide_eq_true_eq]
      exact ⟨pid, hmem, rfl⟩
    simp [sysWaitpid, h, this]

/-- C10 witness: pids 0 and 7 are live, the caller has pid 3 and asks for 7:
the call returns Ok(0) and the caller waits on 7. -/
theorem waitpid_edge_cases_witness :
    (3 : Nat) ≠ 7 ∧ (7 : Nat) ∈ [0, 7] ∧
    sysWaitpid [0, 7] 3 .idle 7 = (.ok 0, .waiting 7) :=
  ⟨by decide, by decide,
    (waitpid_edge_cases [0, 7] 3 .idle 7).2.2 (by decide) (by decide)⟩

/-- C6: a read through an Fd on a non-directory vnode with the u64::MAX
sentinel reads at the internal cursor and advances it by exactly the returned
byte count; the cursor is unchanged when the read fails or when an explicit
position is given; a read on a directory Fd is rejected with InvalidOp. -/
theorem fd_read_cursor (fd : Fd) (pos : Nat) (devRead : Nat → FsRes Nat)
    (n : Nat) (e : FsError) :
    (fd.node.directory = true → fdReadVa fd pos devRead = (.err .invalidOp, fd)) ∧
    (fd.node.directory = false → pos = u64Max → devRead fd.pos = .ok n →
      fd.pos + n < 2 ^ 64 →
      fdReadVa fd pos devRead = (.ok n, { fd with pos := fd.pos + n })) ∧
    (fd.node.directory = false → pos = u64Max → devRead fd.pos = .err e →
      fdReadVa fd pos devRead = (.err e, fd)) ∧
    (fd.node.directory = false → pos ≠ u64Max →
      fdReadVa fd pos devRead = (devRead pos, fd)) := by
  refine ⟨fun h => by simp [fdReadVa, h], fun h hs hr hlt => ?_, fun h hs hr => ?_,
    fun h hs => ?_⟩
  · have hlt2 : fd.pos + n < 18446744073709551616 := by
      calc fd.pos + n < 2 ^ 64 := hlt
        _ = 18446744073709551616 := by norm_num
    simp [fdReadVa, h, execWithPos, execWithPosRaw, hs, hr, Nat.mod_eq_of_lt hlt2]
  · simp [fdReadVa, h, execWithPos, execWithPosRaw, hs, hr]
  · cases hr : devRead pos <;>
      simp [fdReadVa, h, execWithPos, execWithPosRaw, hs, hr]

/-- C6 witness: a non-directory Fd with cursor 5 whose device read returns 3
bytes: the sentinel read succeeds with 3 and the cursor becomes 8. -/
theorem fd_read_cursor_witness :
    (Fd.mk ⟨0, false, false⟩ 5).node.directory = false ∧
    fdReadVa (Fd.mk ⟨0, false, false⟩ 5) u64Max (fun _ => .ok 3) =
      (.ok 3, Fd.mk ⟨0, false, false⟩ 8) :=
  ⟨rfl,
    (fd_read_cursor (Fd.mk ⟨0, false, false⟩ 5) u64Max (fun _ => .ok 3) 3 .eof).2.1
      rfl rfl rfl (by norm_num)⟩

/-- C7: an initrd read on a valid inode rejects directories with InvalidOp;
with remaining = size - pos it returns Eof exactly when remaining is zero and
otherwise copies exactly min(buf.len, remaining) bytes of the data blob
starting at offset addr + pos. -/
theorem initrd_read_spec (fs : InitRd) (vn : VNode) (inode : INode)
    (pos bufLen : Nat)
    (hino : fs.inodes[vn.ino]? = some inode)
    (hwf : inode.addr + inode.size ≤ fs.data.length) :
    (inode.typ = inodeDir → initrdRead fs vn pos bufLen = some (.err .invalidOp)) ∧
    (inode.typ ≠ inodeDir → inode.size - pos = 0 →
      initrdRead fs vn pos bufLen = some (.err .eof)) ∧
    (inode.typ ≠ inodeDir → inode.size - pos ≠ 0 →
      initrdRead fs vn pos bufLen =
        some (.ok ((fs.data.drop (inode.addr + pos)).take
          (min bufLen (inode.size - pos)))) ∧
      ((fs.data.drop (inode.addr + pos)).take
        (min bufLen (inode.size - pos))).length = min bufLen (inode.size - pos)) := by
  refine ⟨fun h => by simp [initrdRead, hino, h], fun h hz => by simp [initrdRead, hino, h, hz],
    fun h hz => ?_⟩
  have hpos : pos < inode.size := by omega
  have hlen : min bufLen (inode.size - pos) ≤ inode.size - pos := Nat.min_le_right _ _
  have hrange : inode.addr + pos + min bufLen (inode.size - pos) ≤ fs.data.length := by
    omega
  constructor
  · simp [initrdRead, hino, h, hz, hrange]
  · rw [List.length_take, List.length_drop]
    omega

/-- C7 witness: a one-file initrd with data blob [9,1,2,3], the file of size
3 at blob offset 1; reading from position 1 with a 5-byte buffer returns the
2 remaining bytes [2,3]. -/
theorem initrd_read_spec_witness :
    (InitRd.mk [INode.mk [] 0 0 3 1] [9, 1, 2, 3]).inodes[(0 : Nat)]? =
      some (INode.mk [] 0 0 3 1) ∧
    (1 : Nat) + 3 ≤ 4 ∧
    initrdRead (InitRd.mk [INode.mk [] 0 0 3 1] [9, 1, 2, 3]) ⟨0, false, true⟩ 1 5 =
      some (.ok [2, 3]) :=
  ⟨rfl, by decide, by
    have h := (initrd_read_spec (InitRd.mk [INode.mk [] 0 0 3 1] [9, 1, 2, 3])
      ⟨0, false, true⟩ (INode.mk [] 0 0 3 1) 1 5 rfl (by decide)).2.2
      (by decide) (by decide)
    exact h.1⟩

/-- C1 (counterexample): with break B = 65536, Sbrk(10) succeeds and returns
65546 = B + 10 — the new break — not the previous break B as claimed. -/
theorem sbrk_previous_break_cex :
    (sysSbrk ⟨65536, ptEmpty⟩ 10 (fun _ => 0)).map (fun p => p.1) = some (.ok 65546) ∧
    (65546 : Nat) ≠ 65536 :=
  ⟨rfl, by decide⟩

/-- C1 (amended): for every process state and signed increment for which
sys_sbrk succeeds, the break is adjusted by exactly `inc` bytes and the value
returned is the NEW break (so Sbrk(0) returns B, Sbrk(10) returns B + 10 and
leaves the break at B + 10, and a subsequent Sbrk(-10) returns B). -/
theorem sbrk_adjusts_and_returns_new_break (st st2 : ProcMem) (inc : Int)
    (fresh : Nat → Nat) (r : Nat)
    (h : sysSbrk st inc fresh = some (.ok r, st2)) :
    (st2.brk : Int) = (st.brk : Int) + inc ∧ r = st2.brk := by
  unfold sysSbrk at h
  split at h
  · exact absurd h (by simp)
  · rename_i newBrk heq
    have hnb : (newBrk : Int) = (st.brk : Int) + inc := by
      simp only [checkedAddSigned] at heq
      by_cases hc : 0 ≤ (st.brk : Int) + inc ∧ (st.brk : Int) + inc < 2 ^ 64
      · rw [if_pos hc] at heq
        cases heq
        exact Int.toNat_of_nonneg hc.1
      · rw [if_neg hc] at heq
        exact absurd heq (by simp)
    split at h
    · split at h
      · split at h
        · exact absurd h (by simp)
        · simp only [Option.some.injEq, Prod.mk.injEq, SysRes.ok.injEq] at h
          obtain ⟨hr, hst⟩ := h
          subst hr hst
          exact ⟨hnb, rfl⟩
      · split at h
        · exact absurd h (by simp)
        · exact absurd h (by simp)
        · simp only [Option.some.injEq, Prod.mk.injEq, SysRes.ok.injEq] at h
          obtain ⟨hr, hst⟩ := h
          subst hr hst
          exact ⟨hnb, rfl⟩
    · simp only [Option.some.injEq, Prod.mk.injEq, SysRes.ok.injEq] at h
      obtain ⟨hr, hst⟩ := h
      subst hr hst
      exact ⟨hnb, rfl⟩

/-- C1 witness: from break 65536, Sbrk(10) succeeds; by the theorem the break
becomes 65546 = 65536 + 10 and the returned value is that new break. -/
theorem sbrk_adjusts_witness :
    ((ProcMem.mk 65546 ptEmpty).brk : Int) = ((ProcMem.mk 65536 ptEmpty).brk : Int) + 10 ∧
    (65546 : Nat) = (ProcMem.mk 65546 ptEmpty).brk :=
  sbrk_adjusts_and_returns_new_break ⟨65536, ptEmpty⟩ ⟨65546, ptEmpty⟩ 10
    (fun _ => 0) 65546 rfl

/-! ## Helper lemmas for the page-table theorems -/

theorem pageNumber_div_pow (x l : Nat) :
    pageNumber x / 2 ^ (12 + l * 9) = x / 2 ^ (12 + l * 9) := by
  unfold pageNumber pageSize
  rw [pow_add, ← Nat.div_div_eq_div_mul, ← Nat.div_div_eq_div_mul]
  congr 1
  rw [show (2 : Nat) ^ 12 = 4096 by norm_num]
  rw [Nat.mul_div_cancel _ (by norm_num : 0 < 4096)]

theorem vpn_pageNumber (x l : Nat) : vpn (pageNumber x) l = vpn x l := by
  unfold vpn
  rw [Nat.shiftRight_eq_div_pow, Nat.shiftRight_eq_div_pow, pageNumber_div_pow]

theorem pageNumber_idem (x : Nat) : pageNumber (pageNumber x) = pageNumber x := by
  unfold pageNumber pageSize
  rw [Nat.mul_div_cancel _ (by norm_num : 0 < 4096)]

theorem offsetAt_zero (va : Nat) : offsetAt va 0 = pageOffset va := by
  unfold offsetAt pageOffset pageSize
  rw [show (1 <<< (12 + 0 * 9)) - 1 = 2 ^ 12 - 1 by norm_num [Nat.shiftLeft_eq]]
  rw [Nat.and_pow_two_sub_one_eq_mod]

theorem contains_stored (p p2 : Nat) (hbits : p &&& pteMask10 = p)
    (hsub : p2 &&& p = p2) (hno : p2 &&& pteOwned = 0) :
    pteContains ((((p &&& (u64Max ^^^ pteOwned)) ||| pteD ||| pteA) &&& pteMask10) ||| pteV)
      p2 = true := by
  have hmain :
      (((((p &&& (u64Max ^^^ pteOwned)) ||| pteD ||| pteA) &&& pteMask10) ||| pteV) &&& p2)
        = p2 := by
    apply Nat.eq_of_testBit_eq
    intro i
    rw [Nat.testBit_and]
    cases hp2 : p2.testBit i with
    | false => simp
    | true =>
      simp only [Bool.and_true]
      have hp : p.testBit i = true := by
        have hh := congrArg (fun n => n.testBit i) hsub
        simp only [Nat.testBit_and, hp2, Bool.true_and] at hh
        exact hh
      have i10 : i < 10 := by
        have hh := congrArg (fun n => n.testBit i) hbits
        rw [show pteMask10 = 2 ^ 10 - 1 by norm_num [pteMask10]] at hh
        simp only [Nat.testBit_and, Nat.testBit_two_pow_sub_one, hp, Bool.true_and,
          decide_eq_true_eq] at hh
        exact hh
      have i8 : ¬(8 = i) := by
        have hh := congrArg (fun n => n.testBit i) hno
        rw [show pteOwned = 2 ^ 8 by norm_num [pteOwned]] at hh
        simp only [Nat.testBit_and, hp2, Bool.true_and, Nat.zero_testBit,
          Nat.testBit_two_pow, decide_eq_false_iff_not] at hh
        exact hh
      have hu : u64Max.testBit i = true := by
        unfold u64Max
        rw [Nat.testBit_two_pow_sub_one]
        exact decide_eq_true (by omega)
      have ho : pteOwned.testBit i = false := by
        rw [show pteOwned = 2 ^ 8 by norm_num [pteOwned]]
        rw [Nat.testBit_two_pow]
        exact decide_eq_false i8
      have hm : pteMask10.testBit i = true := by
        rw [show pteMask10 = 2 ^ 10 - 1 by norm_num [pteMask10]]
        rw [Nat.testBit_two_pow_sub_one]
        exact decide_eq_true i10
      simp only [Nat.testBit_or, Nat.testBit_and, Nat.testBit_xor, hp, hu, ho, hm]
      simp
  unfold pteContains
  rw [hmain]
  exact beq_self_eq_true p2

/-- mapping a leaf at `va` through the interior walk, then translating any
address `w` with the same vpn path and contained permissions, yields the
installed frame plus the page offset of `w` -/
theorem mapPageRawAux_translate (p2 : Nat) :
    ∀ (l : Nat) (t t2 : PTab) (pa va w q : Nat),
      (∀ j, vpn w j = vpn va j) →
      pteContains (((q ||| pteD ||| pteA) &&& pteMask10) ||| pteV) p2 = true →
      mapPageRawAux l t pa va q = some t2 →
      toPhysAux l t2 w p2 = some (pageNumber pa + offsetAt w 0) := by
  intro l
  induction l with
  | zero =>
    intro t t2 pa va w q hw hcont hmap
    unfold mapPageRawAux at hmap
    split at hmap
    · rename_i heq
      have h2 := Option.some.inj hmap
      subst h2
      unfold toPhysAux
      rw [hw 0]
      simp [upd, pteNewLeaf, hcont]
    · exact Option.noConfusion hmap
  | succ l ih =>
    intro t t2 pa va w q hw hcont hmap
    unfold mapPageRawAux at hmap
    split at hmap
    case _ child heq =>
      cases hrec : mapPageRawAux l child pa va q with
      | none => rw [hrec] at hmap; exact Option.noConfusion hmap
      | some c =>
        rw [hrec] at hmap
        simp only [Option.map_some'] at hmap
        have h2 := Option.some.inj hmap
        subst h2
        unfold toPhysAux
        rw [hw (l + 1)]
        have hstep : upd t (vpn va (l + 1)) (PTE.node c) (vpn va (l + 1)) = PTE.node c := by
          simp [upd]
        rw [hstep]
        exact ih child c pa va w q hw hcont hrec
    case _ => exact Option.noConfusion hmap
    case _ heq =>
      cases hrec : mapPageRawAux l ptEmpty pa va q with
      | none => rw [hrec] at hmap; exact Option.noConfusion hmap
      | some c =>
        rw [hrec] at hmap
        simp only [Option.map_some'] at hmap
        have h2 := Option.some.inj hmap
        subst h2
        unfold toPhysAux
        rw [hw (l + 1)]
        have hstep : upd t (vpn va (l + 1)) (PTE.node c) (vpn va (l + 1)) = PTE.node c := by
          simp [upd]
        rw [hstep]
        exact ih ptEmpty c pa va w q hw hcont hrec

/-- C2 (counterexample): map_pages(pa = 1, va = 0, 1 page, R) succeeds, yet
to_phys(0, R) returns 0 = page_of(pa), not pa + (va mod PageSize) = 1: the
claim fails for non-page-aligned physical addresses. -/
theorem map_then_translate_cex :
    (mapPages ptEmpty 1 0 1 pteR).isSome = true ∧
    (mapPages ptEmpty 1 0 1 pteR).map (fun t => toPhys t 0 pteR) = some (some 0) ∧
    (1 : Nat) + pageOffset 0 ≠ 0 :=
  ⟨rfl, rfl, by decide⟩

/-- C2 (amended): for every va < VirtAddr::MAX and permission sets p ⊇ p2
drawn from the ten architectural bits, with the Owned bit absent from p2, if
map_pages(pa, va, 1, p) succeeds then to_phys(va, p2) returns
page_of(pa) + (va mod PageSize). -/
theorem map_then_translate (pt pt2 : PTab) (pa va p p2 : Nat)
    (hva : va < vaMax) (hbits : p &&& pteMask10 = p) (hsub : p2 &&& p = p2)
    (hno : p2 &&& pteOwned = 0)
    (hmap : mapPages pt pa va 1 p = some pt2) :
    toPhys pt2 va p2 = some (pageNumber pa + pageOffset va) := by
  unfold mapPages at hmap
  split at hmap
  · exact Option.noConfusion hmap
  · split at hmap
    · exact Option.noConfusion hmap
    · simp only [Nat.add_sub_cancel, Nat.sub_self, Nat.zero_div, Nat.zero_add] at hmap
      split at hmap
      · rw [show mapPagesGo 1 0 (pageNumber pa) (pageNumber va)
              (p &&& (u64Max ^^^ pteOwned)) pt =
            (match mapPageRaw pt (pageNumber pa + 0 * pageSize)
                (pageNumber va + 0 * pageSize) (p &&& (u64Max ^^^ pteOwned)) with
              | some pt3 => mapPagesGo 0 1 (pageNumber pa) (pageNumber va)
                  (p &&& (u64Max ^^^ pteOwned)) pt3
              | none => none) from rfl] at hmap
        simp only [Nat.zero_mul, Nat.add_zero] at hmap
        cases hm : mapPageRaw pt (pageNumber pa) (pageNumber va)
            (p &&& (u64Max ^^^ pteOwned)) with
        | none => rw [hm] at hmap; exact Option.noConfusion hmap
        | some pt3 =>
          rw [hm] at hmap
          have h2 := Option.some.inj hmap
          subst h2
          have hres := mapPageRawAux_translate p2 2 pt pt3 (pageNumber pa)
            (pageNumber va) va (p &&& (u64Max ^^^ pteOwned))
            (fun j => (vpn_pageNumber va j).symm)
            (contains_stored p p2 hbits hsub hno) hm
          rw [toPhys, hres, pageNumber_idem, offsetAt_zero]
      · exact Option.noConfusion hmap

/-- C2 witness: mapping physical page 4096 at va 0 with R succeeds and
translating va 0 with R yields page_of(4096) + offset = 4096. -/
theorem map_then_translate_witness :
    (0 : Nat) < vaMax ∧ ((2 : Nat) &&& pteMask10 = 2) ∧ ((2 : Nat) &&& 2 = 2) ∧
    ((2 : Nat) &&& pteOwned = 0) ∧
    toPhys (upd ptEmpty 0 (.node (upd ptEmpty 0 (.node (upd ptEmpty 0
      (pteNewLeaf 4096 194)))))) 0 2 = some (pageNumber 4096 + pageOffset 0) :=
  ⟨by decide, by decide, by decide, by decide,
    map_then_translate ptEmpty _ 4096 0 2 2 (by decide) (by decide) (by decide)
      (by decide) rfl⟩

/-! ## Lemmas for destroy (C4) -/

theorem wakeWaiter_pid (mypid ecode : Nat) (p : Proc) :
    (wakeWaiter mypid ecode p).pid = p.pid := by
  unfold wakeWaiter
  split <;> rfl

theorem swapRemoveBack_eq (procs : List Proc) (i : Nat) (hn : 0 < procs.length) :
    swapRemoveBack procs i =
      (procs.set i (procs.get ⟨procs.length - 1, by omega⟩)).dropLast := by
  unfold swapRemoveBack
  rw [List.getLast?_eq_getElem?, List.getElem?_eq_some.mpr ⟨by omega, rfl⟩]
  simp [List.get_eq_getElem]

theorem mem_swapRemoveBack (procs : List Proc) (i : Nat) (p : Proc)
    (hi : i < procs.length)
    (hj : ∃ j, ∃ hjl : j < procs.length, j ≠ i ∧ procs[j] = p) :
    p ∈ swapRemoveBack procs i := by
  obtain ⟨j, hjl, hne, hp⟩ := hj
  have hn : 0 < procs.length := Nat.lt_of_le_of_lt (Nat.zero_le i) hi
  rw [swapRemoveBack_eq procs i hn, List.mem_iff_getElem]
  by_cases hjlast : j = procs.length - 1
  · have hilast : i ≠ procs.length - 1 := fun hh => hne (hjlast.trans hh.symm)
    refine ⟨i, by simp only [List.length_dropLast, List.length_set]; omega, ?_⟩
    rw [List.getElem_dropLast, List.getElem_set, if_pos rfl, ← hp]
    subst hjlast
    rfl
  · refine ⟨j, by simp only [List.length_dropLast, List.length_set]; omega, ?_⟩
    rw [List.getElem_dropLast, List.getElem_set, if_neg (fun hh => hne hh.symm)]
    exact hp

theorem swapRemoveBack_mem_spec (procs : List Proc) (i : Nat) (q : Proc)
    (hi : i < procs.length) (hq : q ∈ swapRemoveBack procs i) :
    ∃ j, ∃ hjl : j < procs.length, j ≠ i ∧ procs[j] = q := by
  have hn : 0 < procs.length := Nat.lt_of_le_of_lt (Nat.zero_le i) hi
  rw [swapRemoveBack_eq procs i hn, List.mem_iff_getElem] at hq
  obtain ⟨k, hk, hkq⟩ := hq
  have hk2 : k < procs.length - 1 := by
    simpa [List.length_dropLast, List.length_set] using hk
  rw [List.getElem_dropLast, List.getElem_set] at hkq
  by_cases hik : i = k
  · exact ⟨procs.length - 1, by omega, by omega,
      by rw [← hkq, if_pos hik, List.get_eq_getElem]⟩
  · exact ⟨k, by omega, fun hh => hik hh.symm, by rw [← hkq, if_neg hik]⟩

/-- C4: destroying the process at position i of PROC_LIST with pid P and
exit code c removes it from the list, wakes every remaining process waiting
on P to Idle with A0 = c and A1 = 0, leaves the other processes untouched,
and panics when P = 0. -/
theorem destroy_spec (procs : List Proc) (i : Nat) (self : Proc) (ecode : Nat)
    (hget : procs[i]? = some self)
    (hnodup : (procs.map Proc.pid).Nodup) :
    (self.pid = 0 → destroy procs i ecode = none) ∧
    (self.pid ≠ 0 → ∃ rest, destroy procs i ecode = some rest ∧
      rest.length + 1 = procs.length ∧
      (∀ q ∈ rest, q.pid ≠ self.pid) ∧
      (∀ p ∈ procs, p.pid ≠ self.pid → p.status = .waiting self.pid →
        ∃ q ∈ rest, q.pid = p.pid ∧ q.status = .idle ∧
          q.regs regA0 = ecode ∧ q.regs regA1 = 0) ∧
      (∀ p ∈ procs, p.pid ≠ self.pid → p.status ≠ .waiting self.pid → p ∈ rest)) := by
  obtain ⟨hi, hself⟩ := List.getElem?_eq_some.mp hget
  have hn : 0 < procs.length := Nat.lt_of_le_of_lt (Nat.zero_le i) hi
  have hpid : ∀ j k, ∀ hjl : j < procs.length, ∀ hkl : k < procs.length, j ≠ k →
      (procs[j]).pid ≠ (procs[k]).pid := by
    intro j k hjl hkl hne hcon
    apply hne
    have hjl2 : j < (procs.map Proc.pid).length := by simpa using hjl
    have hkl2 : k < (procs.map Proc.pid).length := by simpa using hkl
    have hjk : (procs.map Proc.pid)[j] = (procs.map Proc.pid)[k] := by
      rw [List.getElem_map, List.getElem_map]
      exact hcon
    exact hnodup.getElem_inj_iff.mp hjk
  constructor
  · intro h0
    simp only [destroy, hget]
    rw [if_pos h0]
  · intro hP
    refine ⟨(swapRemoveBack procs i).map (wakeWaiter self.pid ecode), ?_, ?_, ?_, ?_, ?_⟩
    · simp only [destroy, hget]
      rw [if_neg hP]
    · rw [List.length_map, swapRemoveBack_eq procs i hn]
      simp only [List.length_dropLast, List.length_set]
      omega
    · intro q hq
      rw [List.mem_map] at hq
      obtain ⟨p0, hp0, hqw⟩ := hq
      obtain ⟨j, hjl, hji, hpj⟩ := swapRemoveBack_mem_spec procs i p0 hi hp0
      rw [← hqw, wakeWaiter_pid, ← hpj, ← hself]
      exact hpid j i hjl hi hji
    · intro p hp hppid hpw
      rw [List.mem_iff_getElem] at hp
      obtain ⟨j, hjl, hpj⟩ := hp
      have hji : j ≠ i := by
        intro hh
        apply hppid
        subst hh
        rw [← hpj, hself]
      have hmem : p ∈ swapRemoveBack procs i :=
        mem_swapRemoveBack procs i p hi ⟨j, hjl, hji, hpj⟩
      refine ⟨wakeWaiter self.pid ecode p, List.mem_map_of_mem _ hmem, ?_, ?_, ?_, ?_⟩
      · exact wakeWaiter_pid _ _ _
      · simp [wakeWaiter, hpw]
      · simp [wakeWaiter, hpw, updReg, regA0, regA1]
      · simp [wakeWaiter, hpw, updReg, regA0, regA1]
    · intro p hp hppid hpnw
      rw [List.mem_iff_getElem] at hp
      obtain ⟨j, hjl, hpj⟩ := hp
      have hji : j ≠ i := by
        intro hh
        apply hppid
        subst hh
        rw [← hpj, hself]
      have hmem : p ∈ swapRemoveBack procs i :=
        mem_swapRemoveBack procs i p hi ⟨j, hjl, hji, hpj⟩
      have hw : wakeWaiter self.pid ecode p = p := by simp [wakeWaiter, hpnw]
      rw [← hw]
      exact List.mem_map_of_mem _ hmem

/-- C4 witness: list [pid 1 (self), pid 2 waiting on 1, pid 3 idle], destroy
index 0 with exit code 42: pid 1 disappears, pid 2 wakes to Idle with
A0 = 42, A1 = 0, pid 3 is untouched. -/
theorem destroy_spec_witness :
    ([Proc.mk 1 .idle (fun _ => 0), Proc.mk 2 (.waiting 1) (fun _ => 0),
        Proc.mk 3 .idle (fun _ => 0)] :
      List Proc)[(0 : Nat)]? = some (Proc.mk 1 .idle (fun _ => 0)) ∧
    (([Proc.mk 1 .idle (fun _ => 0), Proc.mk 2 (.waiting 1) (fun _ => 0),
        Proc.mk 3 .idle (fun _ => 0)].map Proc.pid).Nodup) ∧
    (∃ rest,
      destroy [Proc.mk 1 .idle (fun _ => 0), Proc.mk 2 (.waiting 1) (fun _ => 0),
        Proc.mk 3 .idle (fun _ => 0)] 0 42 = some rest ∧
      rest.length + 1 = 3 ∧
      (∀ q ∈ rest, q.pid ≠ 1) ∧
      (∀ p ∈ [Proc.mk 1 .idle (fun _ => 0), Proc.mk 2 (.waiting 1) (fun _ => 0),
          Proc.mk 3 .idle (fun _ => 0)], p.pid ≠ 1 → p.status = .waiting 1 →
        ∃ q ∈ rest, q.pid = p.pid ∧ q.status = .idle ∧
          q.regs regA0 = 42 ∧ q.regs regA1 = 0) ∧
      (∀ p ∈ [Proc.mk 1 .idle (fun _ => 0), Proc.mk 2 (.waiting 1) (fun _ => 0),
          Proc.mk 3 .idle (fun _ => 0)], p.pid ≠ 1 → p.status ≠ .waiting 1 →
        p ∈ rest)) :=
  ⟨rfl, by simp,
    (destroy_spec [Proc.mk 1 .idle (fun _ => 0), Proc.mk 2 (.waiting 1) (fun _ => 0),
      Proc.mk 3 .idle (fun _ => 0)] 0 (Proc.mk 1 .idle (fun _ => 0)) 42 rfl
      (by simp)).2 (by decide)⟩

/-- C3: unmapping a single mapped page with unmap_pages(va, va): afterwards
translation of va fails for every permission set, the frame of an Owned leaf
is freed exactly once (a non-Owned leaf is only detached, freeing nothing),
and the interior nodes along the path survive, holding an invalid slot. -/
theorem unmap_single_leaf (pt c1 c2 : PTab) (va a p : Nat)
    (hva : va < vaMax) (hal : pageNumber va = va)
    (h2 : pt (vpn va 2) = PTE.node c1) (h1 : c1 (vpn va 1) = PTE.node c2)
    (h0 : c2 (vpn va 0) = PTE.leaf a p) :
    ∃ pt2 d1 d2,
      unmapPages pt va va = some (pt2, if p &&& pteOwned ≠ 0 then [a] else []) ∧
      (∀ q, toPhys pt2 va q = none) ∧
      pt2 (vpn va 2) = PTE.node d1 ∧ d1 (vpn va 1) = PTE.node d2 ∧
      d2 (vpn va 0) = PTE.invalid := by
  refine ⟨upd pt (vpn va 2) (.node (upd c1 (vpn va 1)
      (.node (upd c2 (vpn va 0) .invalid)))),
    upd c1 (vpn va 1) (.node (upd c2 (vpn va 0) .invalid)),
    upd c2 (vpn va 0) .invalid, ?_, ?_, ?_, ?_, ?_⟩
  · have e0 : unmapPageAux 0 c2 va =
        some (upd c2 (vpn va 0) PTE.invalid,
          if p &&& pteOwned ≠ 0 then [a] else [], true) := by
      simp only [unmapPageAux, h0]
    have e1 : unmapPageAux 1 c1 va =
        some (upd c1 (vpn va 1) (PTE.node (upd c2 (vpn va 0) PTE.invalid)),
          if p &&& pteOwned ≠ 0 then [a] else [], true) := by
      rw [show unmapPageAux 1 c1 va =
          (match c1 (vpn va 1) with
            | PTE.node child => (unmapPageAux 0 child va).map
                (fun r => (upd c1 (vpn va 1) (PTE.node r.1), r.2.1, r.2.2))
            | PTE.leaf _ _ => none
            | PTE.invalid => some (c1, [], false)) from rfl]
      simp only [h1, e0, Option.map_some']
    have e2 : unmapPage pt va =
        some (upd pt (vpn va 2) (PTE.node (upd c1 (vpn va 1)
            (PTE.node (upd c2 (vpn va 0) PTE.invalid)))),
          if p &&& pteOwned ≠ 0 then [a] else [], true) := by
      rw [show unmapPage pt va =
          (match pt (vpn va 2) with
            | PTE.node child => (unmapPageAux 1 child va).map
                (fun r => (upd pt (vpn va 2) (PTE.node r.1), r.2.1, r.2.2))
            | PTE.leaf _ _ => none
            | PTE.invalid => some (pt, [], false)) from rfl]
      simp only [h2, e1, Option.map_some']
    have hcond : va < vaMax ∧ va < vaMax ∧ va ≤ va := ⟨hva, hva, Nat.le_refl va⟩
    simp only [unmapPages, if_pos hcond, hal, Nat.sub_self, Nat.zero_div, Nat.zero_add]
    simp only [unmapPagesGo, e2, Option.map_some', List.append_nil]
  · intro q
    simp [toPhys, toPhysAux, upd]
  · simp [upd]
  · simp [upd]
  · simp [upd]

/-- C3 witness: a concrete table owning frame 8192 at va 0 (leaf perms
V|R|A|D|Owned = 451): unmapping frees exactly [8192], translation fails, and
the interior nodes survive. -/
theorem unmap_single_leaf_witness :
    (0 : Nat) < vaMax ∧ pageNumber 0 = 0 ∧
    (∃ pt2 d1 d2,
      unmapPages (upd ptEmpty 0 (.node (upd ptEmpty 0 (.node (upd ptEmpty 0
        (PTE.leaf 8192 451)))))) 0 0 = some (pt2, [8192]) ∧
      (∀ q, toPhys pt2 0 q = none) ∧
      pt2 (vpn 0 2) = PTE.node d1 ∧ d1 (vpn 0 1) = PTE.node d2 ∧
      d2 (vpn 0 0) = PTE.invalid) :=
  ⟨by decide, by decide,
    unmap_single_leaf (upd ptEmpty 0 (.node (upd ptEmpty 0 (.node (upd ptEmpty 0
        (PTE.leaf 8192 451))))))
      (upd ptEmpty 0 (.node (upd ptEmpty 0 (PTE.leaf 8192 451))))
      (upd ptEmpty 0 (PTE.leaf 8192 451)) 0 8192 451
      (by decide) (by decide) rfl rfl rfl⟩

/-! ## Lemmas for the VFS mount routing (C9) -/

theorem lex_of_append (l1 : List Nat) (x : Nat) (t : List Nat) :
    byteLt l1 (l1 ++ x :: t) := by
  induction l1 with
  | nil => exact List.Lex.nil
  | cons a l ih => exact List.Lex.cons ih

theorem byteLt_asymm : ∀ {a b : List Nat}, byteLt a b → ¬ byteLt b a := by
  intro a b hab
  induction hab with
  | nil => intro hba; cases hba
  | @cons c l1 l2 h ih =>
    intro hba
    cases hba with
    | cons h2 => exact ih h2
    | rel h2 => exact Nat.lt_irrefl _ h2
  | @rel a1 l1 a2 l2 h =>
    intro hba
    cases hba with
    | cons h2 => exact Nat.lt_irrefl _ h
    | rel h2 => exact Nat.lt_asymm h h2

theorem twoPrefixTotal {α : Type} :
    ∀ (l3 l1 l2 : List α), l1 <+: l3 → l2 <+: l3 → l1 <+: l2 ∨ l2 <+: l1 := by
  intro l3
  induction l3 with
  | nil =>
    intro l1 l2 h1 h2
    obtain ⟨t1, ht1⟩ := h1
    rw [List.append_eq_nil] at ht1
    exact Or.inl (ht1.1 ▸ ⟨l2, by simp⟩)
  | cons c t ih =>
    intro l1 l2 h1 h2
    cases l1 with
    | nil => exact Or.inl ⟨l2, by simp⟩
    | cons a l1' =>
      cases l2 with
      | nil => exact Or.inr ⟨a :: l1', by simp⟩
      | cons b l2' =>
        rw [List.cons_prefix_cons] at h1 h2
        rcases ih l1' l2' h1.2 h2.2 with h | h
        · exact Or.inl (List.cons_prefix_cons.mpr ⟨h1.1.trans h2.1.symm, h⟩)
        · exact Or.inr (List.cons_prefix_cons.mpr ⟨h2.1.trans h1.1.symm, h⟩)

theorem pathComponents_ne_nil (k : List Nat) : ∀ c ∈ pathComponents k, c ≠ [] := by
  intro c hc hnil
  unfold pathComponents at hc
  rw [List.mem_filter] at hc
  subst hnil
  simp at hc

theorem encodeAbs_lt (cs1 cs2 : List (List Nat)) (hne : ∀ c ∈ cs2, c ≠ [])
    (hpre : cs1 <+: cs2) (hlen : cs1.length < cs2.length) :
    byteLt (encodeAbs cs1) (encodeAbs cs2) := by
  obtain ⟨t, ht⟩ := hpre
  match t, ht with
  | [], ht => rw [← ht] at hlen; simp at hlen
  | d :: rest, ht =>
    have hd : d ≠ [] := hne d (by rw [← ht]; simp)
    match cs1, d, hd with
    | [], d0 :: d', _ =>
      rw [← ht]
      show byteLt [slashByte] (encodeAbs ((d0 :: d') :: rest))
      have : encodeAbs ((d0 :: d') :: rest) =
          slashByte :: d0 :: (d' ++ ((rest.map (fun c => slashByte :: c)).flatten)) := by
        show (((d0 :: d') :: rest).map (fun c => slashByte :: c)).flatten = _
        simp
      rw [this]
      exact List.Lex.cons List.Lex.nil
    | c :: cs1', d, hd =>
      rw [← ht]
      have he : encodeAbs ((c :: cs1') ++ d :: rest) =
          encodeAbs (c :: cs1') ++ (slashByte :: d) ++
            ((rest.map (fun c => slashByte :: c)).flatten) := by
        show ((((c :: cs1') ++ d :: rest)).map (fun c => slashByte :: c)).flatten = _
        rw [List.map_append, List.flatten_append]
        simp [encodeAbs]
      rw [he, List.append_assoc]
      exact lex_of_append _ slashByte _

theorem vfsOpenGo_spec (path : List Nat) :
    ∀ (ms : List (List Nat × Nat)),
      ms.Pairwise (fun x y => byteLt y.1 x.1) →
      (∀ m ∈ ms, canonicalMount m.1) →
      ((vfsOpenGo ms path = none ↔
        ∀ m ∈ ms, ¬ pathComponents m.1 <+: pathComponents path) ∧
       (∀ fs rest, vfsOpenGo ms path = some (fs, rest) →
         ∃ k, (k, fs) ∈ ms ∧ pathComponents k <+: pathComponents path ∧
           rest = (pathComponents path).drop (pathComponents k).length ∧
           ∀ m ∈ ms, pathComponents m.1 <+: pathComponents path →
             (pathComponents m.1).length ≤ (pathComponents k).length)) := by
  intro ms
  induction ms with
  | nil =>
    intro _ _
    constructor
    · simp [vfsOpenGo]
    · intro fs rest h
      exact absurd h (by simp [vfsOpenGo])
  | cons hd tl ih =>
    intro hsort hcanon
    obtain ⟨k0, f0⟩ := hd
    have hsort2 := List.pairwise_cons.mp hsort
    have ihh := ih hsort2.2 (fun m hm => hcanon m (List.mem_cons_of_mem _ hm))
    by_cases hmatch : (pathComponents k0).isPrefixOf (pathComponents path)
    · have hpre : pathComponents k0 <+: pathComponents path :=
        List.isPrefixOf_iff_prefix.mp hmatch
      constructor
      · constructor
        · intro h
          exact absurd h (by simp [vfsOpenGo, stripPrefixM, hmatch])
        · intro hall
          exact absurd hpre (hall (k0, f0) (List.mem_cons_self _ _))
      · intro fs rest h
        have hfr : f0 = fs ∧ (pathComponents path).drop (pathComponents k0).length = rest := by
          simpa [vfsOpenGo, stripPrefixM, hmatch] using h
        obtain ⟨hfs, hrest⟩ := hfr
        subst hfs
        refine ⟨k0, List.mem_cons_self _ _, hpre, hrest.symm, ?_⟩
        intro m hm hmp
        rcases List.mem_cons.mp hm with he | he
        · rw [he]
        · have hlt : byteLt m.1 k0 := hsort2.1 m he
          by_contra hgt
          push_neg at hgt
          rcases twoPrefixTotal _ _ _ hpre hmp with hc | hc
          · have hk0c : canonicalMount k0 := hcanon (k0, f0) (List.mem_cons_self _ _)
            have hmc : canonicalMount m.1 := hcanon m (List.mem_cons_of_mem _ he)
            have hfwd : byteLt k0 m.1 := by
              rw [← hk0c, ← hmc]
              exact encodeAbs_lt _ _ (pathComponents_ne_nil m.1) hc hgt
            exact byteLt_asymm hfwd hlt
          · exact absurd hc.length_le (by omega)
    · have hpre : ¬ pathComponents k0 <+: pathComponents path := fun hc =>
        hmatch (List.isPrefixOf_iff_prefix.mpr hc)
      have hstep : vfsOpenGo ((k0, f0) :: tl) path = vfsOpenGo tl path := by
        simp [vfsOpenGo, stripPrefixM, hmatch]
      constructor
      · rw [hstep, ihh.1]
        constructor
        · intro h m hm
          rcases List.mem_cons.mp hm with he | he
          · rw [he]; exact hpre
          · exact h m he
        · intro h m hm
          exact h m (List.mem_cons_of_mem _ hm)
      · intro fs rest h
        rw [hstep] at h
        obtain ⟨k, hk, h1, h2, h3⟩ := ihh.2 fs rest h
        refine ⟨k, List.mem_cons_of_mem _ hk, h1, h2, ?_⟩
        intro m hm hmp
        rcases List.mem_cons.mp hm with he | he
        · rw [he] at hmp; exact absurd hmp hpre
        · exact h3 m he hmp

/-- C9 (counterexample): with mounts keyed "dev" and "/dev/x" (both legal
mount paths, listed in the map's ascending byte order) and path "/dev/x/y",
open selects the filesystem of "dev" — one component — although "/dev/x" is
a two-component prefix of the path: the longest-prefix claim fails. -/
theorem vfs_open_longest_cex :
    vfsOpen [([47, 100, 101, 118, 47, 120], 1), ([100, 101, 118], 0)]
        [47, 100, 101, 118, 47, 120, 47, 121] = some (0, [[120], [121]]) ∧
    byteLt [47, 100, 101, 118, 47, 120] [100, 101, 118] ∧
    pathComponents [47, 100, 101, 118, 47, 120] <+:
      pathComponents [47, 100, 101, 118, 47, 120, 47, 121] ∧
    (pathComponents [100, 101, 118]).length <
      (pathComponents [47, 100, 101, 118, 47, 120]).length :=
  ⟨by decide, by decide, by decide, by decide⟩

/-- C9 (amended): when every mount path is canonical-absolute (its bytes are
exactly "/" followed by its components joined by single slashes), Vfs::open
picks, among the mounts whose component list is a prefix of the path's, one
of maximal length, strips that prefix and delegates the rest to the matched
filesystem; when no mount path is a prefix it fails with PathNotFound. -/
theorem vfs_open_longest (mounts : List (List Nat × Nat)) (path : List Nat)
    (hsort : mounts.Pairwise (fun x y => byteLt x.1 y.1))
    (hcanon : ∀ m ∈ mounts, canonicalMount m.1) :
    (vfsOpen mounts path = none ↔
      ∀ m ∈ mounts, ¬ pathComponents m.1 <+: pathComponents path) ∧
    (∀ fs rest, vfsOpen mounts path = some (fs, rest) →
      ∃ k, (k, fs) ∈ mounts ∧ pathComponents k <+: pathComponents path ∧
        rest = (pathComponents path).drop (pathComponents k).length ∧
        ∀ m ∈ mounts, pathComponents m.1 <+: pathComponents path →
          (pathComponents m.1).length ≤ (pathComponents k).length) := by
  have hrev : (mounts.reverse).Pairwise (fun x y => byteLt y.1 x.1) := by
    rw [List.pairwise_reverse]
    exact hsort
  have hcanon2 : ∀ m ∈ mounts.reverse, canonicalMount m.1 := fun m hm =>
    hcanon m (List.mem_reverse.mp hm)
  have h := vfsOpenGo_spec path mounts.reverse hrev hcanon2
  unfold vfsOpen
  constructor
  · rw [h.1]
    constructor
    · intro hh m hm
      exact hh m (List.mem_reverse.mpr hm)
    · intro hh m hm
      exact hh m (List.mem_reverse.mp hm)
  · intro fs rest hh
    obtain ⟨k, hk, h1, h2, h3⟩ := h.2 fs rest hh
    exact ⟨k, List.mem_reverse.mp hk, h1, h2,
      fun m hm hmp => h3 m (List.mem_reverse.mpr hm) hmp⟩

/-- C9 witness: canonical mounts "/" and "/dev" with path "/dev/x": open
returns filesystem 1 with remaining component "x", and "/dev" is the longest
matching prefix. -/
theorem vfs_open_longest_witness :
    ([([47], 0), ([47, 100, 101, 118], 1)] : List (List Nat × Nat)).Pairwise
      (fun x y => byteLt x.1 y.1) ∧
    (∀ m ∈ ([([47], 0), ([47, 100, 101, 118], 1)] : List (List Nat × Nat)),
      canonicalMount m.1) ∧
    (∃ k, (k, 1) ∈ ([([47], 0), ([47, 100, 101, 118], 1)] : List (List Nat × Nat)) ∧
      pathComponents k <+: pathComponents [47, 100, 101, 118, 47, 120] ∧
      ([[120]] : List (List Nat)) =
        (pathComponents [47, 100, 101, 118, 47, 120]).drop (pathComponents k).length ∧
      ∀ m ∈ ([([47], 0), ([47, 100, 101, 118], 1)] : List (List Nat × Nat)),
        pathComponents m.1 <+: pathComponents [47, 100, 101, 118, 47, 120] →
          (pathComponents m.1).length ≤ (pathComponents k).length) :=
  ⟨by decide, by decide,
    (vfs_open_longest [([47], 0), ([47, 100, 101, 118], 1)]
      [47, 100, 101, 118, 47, 120] (by decide) (by decide)).2 1 [[120]] (by decide)⟩

end Servos
